import Mathlib

/-!
Verification of the velero-integrator operator's reconciliation and merge logic.

The definitions below are a shallow embedding of the repository's core modules:
  * `src/src/core/charm_config.py`  — schedule configuration validation,
  * `src/lib/charms/k8s_backup_libs/v0/backup_target.py` — the backup target spec,
  * `src/src/core/domain.py`        — target records and the merge with the config,
  * `src/src/core/context.py`       — config error listing and target enumeration,
  * `src/src/events/general.py` and `src/src/events/velero_backup.py` — the
    reconciliation pass and the publish step.

Python regular expressions are embedded as executable character-list matchers.
The embedding restricts the character classes to ASCII: Python's `\d` and `\s`
also accept some non-ASCII code points, and `$` also matches before a final
newline; none of the inputs considered below contain such characters.
-/

set_option maxRecDepth 8000

namespace VeleroIntegrator

/-- ASCII part of Python's regex whitespace class `\s` (space, tab, newline,
carriage return, vertical tab, form feed). -/
def isPySpace (c : Char) : Bool :=
  c == ' ' || c == '\t' || c == '\n' || c == '\r' || c == '\x0b' || c == '\x0c'

/-- Split a character list at every character satisfying `p`, keeping empty
pieces (the semantics of Python's `str.split(sep)` for one separator). -/
def splitAnyChar (p : Char → Bool) : List Char → List (List Char)
  | [] => [[]]
  | c :: rest =>
    let r := splitAnyChar p rest
    if p c then [] :: r
    else
      match r with
      | h :: t => (c :: h) :: t
      | [] => [[c]]

/-- The non-empty whitespace-separated tokens of a character list. -/
def wsTokens (cs : List Char) : List (List Char) :=
  (splitAnyChar isPySpace cs).filter (fun t => !t.isEmpty)

/-- A non-empty run of ASCII digits: the language of `\d+`. -/
def isDigits (cs : List Char) : Bool :=
  !cs.isEmpty && cs.all Char.isDigit

/-- The language of `\d+(-\d+)?`: a number or a number range `A-B`. -/
def numOrRangeL (cs : List Char) : Bool :=
  match splitAnyChar (fun c => c == '-') cs with
  | [a] => isDigits a
  | [a, b] => isDigits a && isDigits b
  | _ => false

/-- `CRON_FIELD` of `src/src/core/charm_config.py`:
`(\*|(\*/\d+)|(\d+(-\d+)?)(,\d+(-\d+)?)*|\?)`, required to cover a whole
whitespace-delimited token.  The alternatives are `*`, `*/N`, a comma-separated
list of numbers and ranges, or `?`. -/
def cronFieldL (cs : List Char) : Bool :=
  cs == ['*'] || cs == ['?'] ||
  (match cs with
   | '*' :: '/' :: ds => isDigits ds
   | _ => false) ||
  (splitAnyChar (fun c => c == ',') cs).all numOrRangeL

/-- The string is non-empty and neither starts nor ends with whitespace
(forced by the `^` and `$` anchors around `CRON_REGEX`). -/
def noEdgeSpace (cs : List Char) : Bool :=
  match cs with
  | [] => false
  | c :: rest => !isPySpace c && !isPySpace ((c :: rest).getLastD c)

/-- `CRON_REGEX = ^FIELD(\s+FIELD){4,5}$` of `src/src/core/charm_config.py`.
Since no field alternative can contain whitespace and every field must be
followed by whitespace or the end of the string, the regex language is exactly:
no leading or trailing whitespace, and 5 or 6 whitespace-separated tokens each
of which is a complete `CRON_FIELD`. -/
def cronMatch (s : String) : Bool :=
  let fs := wsTokens s.data
  noEdgeSpace s.data && decide (5 ≤ fs.length) && decide (fs.length ≤ 6) &&
    fs.all cronFieldL

/-- Maximal leading digit run of a character list, with the remainder. -/
def takeDigits : List Char → List Char × List Char
  | [] => ([], [])
  | c :: cs =>
    if c.isDigit then
      let (d, r) := takeDigits cs
      (c :: d, r)
    else ([], c :: cs)

/-- Consume an optional `\d+u` group (for unit character `u`) from the front of
the list, per the greedy optional groups of `DURATION_REGEX`; if the group does
not match, the input is returned unchanged. -/
def chompUnit (u : Char) (cs : List Char) : List Char :=
  match takeDigits cs with
  | (ds, rest) =>
    if ds.isEmpty then cs
    else
      match rest with
      | c :: rest' => if c == u then rest' else cs
      | [] => cs

/-- `DURATION_REGEX = ^(?=.*\d)(?:(\d+)h)?(?:(\d+)m)?(?:(\d+)s)?$` of
`src/lib/charms/k8s_backup_libs/v0/backup_target.py`: at least one digit
somewhere, then optional `\d+h`, `\d+m`, `\d+s` groups in that order covering
the whole string. -/
def durationMatch (s : String) : Bool :=
  s.data.any Char.isDigit &&
    (chompUnit 's' (chompUnit 'm' (chompUnit 'h' s.data))).isEmpty

/-- The validated schedule configuration: `CharmConfig` of
`src/src/core/charm_config.py`. -/
structure CharmConfig where
  schedule : Option String
  paused : Bool
  skip_immediately : Bool
  use_owner_references_in_backup : Bool
deriving DecidableEq, Repr

/-- The raw configuration values handed to `CharmConfig` by
`Context.config` in `src/src/core/context.py` (the schedule as an optional
string, the three flags already coerced to booleans). -/
structure RawConfig where
  schedule : Option String
  paused : Bool
  skip_immediately : Bool
  use_owner_references_in_backup : Bool
deriving DecidableEq, Repr

/-- The `blank_string` field validator: an empty string schedule becomes
`None` before validation. -/
def blankToNone : Option String → Option String
  | some s => if s = "" then none else some s
  | none => none

/-- The message raised by `CharmConfig.validate_schedule` for a schedule that
does not match `CRON_REGEX`. -/
def cronErrorMsg (s : String) : String :=
  "Invalid cron expression: " ++ s ++
    ". Expected format: '* * * * *' (min hour day month weekday)"

/-- Construction of `CharmConfig`: the `blank_string` validator runs first,
then `validate_schedule` checks a non-empty schedule against `CRON_REGEX` and
raises on mismatch. -/
def CharmConfig.build (raw : RawConfig) : Except String CharmConfig :=
  match blankToNone raw.schedule with
  | some s =>
    if cronMatch s then
      .ok { schedule := some s, paused := raw.paused,
            skip_immediately := raw.skip_immediately,
            use_owner_references_in_backup := raw.use_owner_references_in_backup }
    else .error (cronErrorMsg s)
  | none =>
    .ok { schedule := none, paused := raw.paused,
          skip_immediately := raw.skip_immediately,
          use_owner_references_in_backup := raw.use_owner_references_in_backup }

/-- `CharmConfig.is_scheduled`: a schedule is configured. -/
def CharmConfig.is_scheduled (c : CharmConfig) : Bool :=
  c.schedule.isSome

/-- `CharmConfig.is_paused`: `self.paused and self.is_scheduled`. -/
def CharmConfig.is_paused (c : CharmConfig) : Bool :=
  c.paused && c.is_scheduled

/-- `Context.config_errors` of `src/src/core/context.py`: the list
`[".".join(str(p).replace("_", "-") for p in err["loc"]) for err in ve.errors()]`
over the pydantic validation errors.  The only validator that can fail is the
model-level `validate_schedule`; by pydantic's documented semantics an error
raised by a `model_validator(mode="after")` carries the empty location tuple
`()`, so the joined location string is the empty string. -/
def config_errors (raw : RawConfig) : List String :=
  match CharmConfig.build raw with
  | .ok _ => []
  | .error _ => [""]

/-! Grammar written from the claim's words (for comparison with `cronMatch`):
each field matches `*`, `*/N`, a number, a number range `A-B`, or a
comma-separated list of those, with `?` supported as an optional suffix for the
day/weekday fields (positions 2 and 4 of minute hour day month weekday
[second]). -/

/-- One atom of the claimed field grammar: `*`, `*/N`, a number, or a range. -/
def cronAtomSpec (cs : List Char) : Bool :=
  cs == ['*'] ||
  (match cs with
   | '*' :: '/' :: ds => isDigits ds
   | _ => false) ||
  numOrRangeL cs

/-- A non-empty comma-separated list of atoms (a single atom being a
one-element list). -/
def cronListSpec (cs : List Char) : Bool :=
  !cs.isEmpty && (splitAnyChar (fun c => c == ',') cs).all cronAtomSpec

/-- Field `i` of the claimed grammar: a list of atoms, optionally suffixed
with `?` when `i` is the day (2) or weekday (4) position. -/
def cronFieldSpec (i : Nat) (cs : List Char) : Bool :=
  cronListSpec cs ||
  ((i == 2 || i == 4) &&
    (match cs.reverse with
     | '?' :: rest => cronListSpec rest.reverse
     | _ => false))

/-- The cron grammar exactly as the claim states it. -/
def specCronMatch (s : String) : Bool :=
  let fs := wsTokens s.data
  noEdgeSpace s.data && decide (5 ≤ fs.length) && decide (fs.length ≤ 6) &&
    fs.enum.all (fun p => cronFieldSpec p.1 p.2)

/-! JSON values and a JSON text parser, used to embed
`BackupTargetSpec.model_validate_json` and `model_dump_json` (pydantic parses
the databag `spec` string as JSON and checks the field shapes; the dataclass
hook `__post_init__` of `BackupTargetSpec` is never invoked by pydantic on a
`BaseModel`, so the TTL check inside it is dead code).  Numbers are kept as
their raw numeral text; lone surrogate escapes, which Lean strings cannot
represent, are rejected. -/

/-- JSON values. -/
inductive Json where
  | null
  | bool (b : Bool)
  | num (raw : String)
  | str (s : String)
  | arr (elems : List Json)
  | obj (members : List (String × Json))
deriving Repr

/-- JSON insignificant whitespace (space, tab, newline, carriage return). -/
def isJsonWs (c : Char) : Bool :=
  c == ' ' || c == '\t' || c == '\n' || c == '\r'

/-- Drop leading JSON whitespace. -/
def skipWs : List Char → List Char
  | [] => []
  | c :: cs => if isJsonWs c then skipWs cs else c :: cs

/-- Value of one hex digit. -/
def hexVal? (c : Char) : Option Nat :=
  let n := c.toNat
  if 48 ≤ n ∧ n ≤ 57 then some (n - 48)
  else if 97 ≤ n ∧ n ≤ 102 then some (n - 87)
  else if 65 ≤ n ∧ n ≤ 70 then some (n - 55)
  else none

/-- Value of a four-hex-digit escape. -/
def hex4? (a b c d : Char) : Option Nat :=
  match hexVal? a, hexVal? b, hexVal? c, hexVal? d with
  | some x, some y, some z, some w => some (((x * 16 + y) * 16 + z) * 16 + w)
  | _, _, _, _ => none

/-- Decoded replacement of a simple (one-character) escape. -/
def simpleEsc? (e : Char) : Option Char :=
  if e = '"' then some '"'
  else if e = '\\' then some '\\'
  else if e = '/' then some '/'
  else if e = 'b' then some '\x08'
  else if e = 'f' then some '\x0c'
  else if e = 'n' then some '\n'
  else if e = 'r' then some '\r'
  else if e = 't' then some '\t'
  else none

/-- Decode one unit of a JSON string body: the closing quote (`none`), or one
decoded character (`some`) with the remaining input.  Unescaped control
characters are rejected (strict mode); surrogate escape pairs are combined,
lone surrogates rejected. -/
def strChunk : List Char → Option (Option Char × List Char)
  | [] => none
  | c :: rest =>
    if c = '"' then some (none, rest)
    else if c = '\\' then
      match rest with
      | [] => none
      | e :: rest' =>
        if e = 'u' then
          match rest' with
          | h1 :: h2 :: h3 :: h4 :: rest2 =>
            (match hex4? h1 h2 h3 h4 with
             | none => none
             | some n1 =>
               if 0xD800 ≤ n1 && n1 < 0xDC00 then
                 match rest2 with
                 | b1 :: b2 :: g1 :: g2 :: g3 :: g4 :: rest3 =>
                   if b1 = '\\' then
                     if b2 = 'u' then
                       match hex4? g1 g2 g3 g4 with
                       | none => none
                       | some n2 =>
                         if 0xDC00 ≤ n2 && n2 < 0xE000 then
                           some (some (Char.ofNat
                             (0x10000 + (n1 - 0xD800) * 0x400 + (n2 - 0xDC00))), rest3)
                         else none
                     else none
                   else none
                 | _ => none
               else if 0xDC00 ≤ n1 && n1 < 0xE000 then none
               else some (some (Char.ofNat n1), rest2))
          | _ => none
        else
          match simpleEsc? e with
          | none => none
          | some d => some (some d, rest')
    else if c.toNat < 0x20 then none
    else some (some c, rest)

/-- Parse the body of a JSON string (after the opening quote) up to and
including the closing quote, returning the decoded characters and the rest.
Fuel-bounded; every step decodes one character, so one unit of fuel per
decoded character plus one for the closing quote is enough, and callers pass
the remaining input's length plus one. -/
def parseStrChars : Nat → List Char → Option (List Char × List Char)
  | 0, _ => none
  | fuel + 1, cs =>
    match strChunk cs with
    | none => none
    | some (none, rest) => some ([], rest)
    | some (some d, rest) => (parseStrChars fuel rest).map (fun p => (d :: p.1, p.2))

/-- Maximal leading run of characters satisfying `p`, with the remainder. -/
def takeWhileL (p : Char → Bool) : List Char → List Char × List Char
  | [] => ([], [])
  | c :: cs =>
    if p c then
      let (d, r) := takeWhileL p cs
      (c :: d, r)
    else ([], c :: cs)

/-- Characters that can occur in a JSON numeral token. -/
def isNumChar (c : Char) : Bool :=
  c.isDigit || c == '-' || c == '+' || c == '.' || c == 'e' || c == 'E'

/-- Consume `(0|[1-9][0-9]*)`. -/
def chompIntPart : List Char → Option (List Char)
  | [] => none
  | c :: rest =>
    if c == '0' then some rest
    else if c.isDigit then some (takeWhileL Char.isDigit rest).2
    else none

/-- Consume an optional `(\.[0-9]+)`. -/
def chompFrac : List Char → Option (List Char)
  | '.' :: rest =>
    let (ds, r) := takeWhileL Char.isDigit rest
    if ds.isEmpty then none else some r
  | cs => some cs

/-- Consume an optional `([eE][+-]?[0-9]+)`. -/
def chompExp : List Char → Option (List Char)
  | [] => some []
  | c :: rest =>
    if c == 'e' || c == 'E' then
      let rest' := match rest with
        | s :: r => if s == '+' || s == '-' then r else s :: r
        | [] => []
      let (ds, r) := takeWhileL Char.isDigit rest'
      if ds.isEmpty then none else some r
    else some (c :: rest)

/-- The whole token is a valid JSON numeral `-?(0|[1-9]\d*)(\.\d+)?([eE][+-]?\d+)?`. -/
def validNum (cs : List Char) : Bool :=
  let cs1 := match cs with
    | '-' :: r => r
    | _ => cs
  match chompIntPart cs1 with
  | none => false
  | some r1 =>
    match chompFrac r1 with
    | none => false
    | some r2 =>
      match chompExp r2 with
      | none => false
      | some r3 => r3.isEmpty

mutual

/-- Parse one JSON value (fuel-bounded); returns the value and the rest of the
input.  `parseJson` supplies enough fuel for its whole input. -/
def parseValue : Nat → List Char → Option (Json × List Char)
  | 0, _ => none
  | fuel + 1, cs =>
    match skipWs cs with
    | [] => none
    | c :: rest =>
      if c = '"' then
        (parseStrChars (rest.length + 1) rest).map (fun p => (Json.str (String.mk p.1), p.2))
      else if c = '{' then
        match skipWs rest with
        | [] => none
        | c' :: rest' =>
          if c' = '}' then some (Json.obj [], rest')
          else (parseMembers fuel (c' :: rest')).map (fun p => (Json.obj p.1, p.2))
      else if c = '[' then
        match skipWs rest with
        | [] => none
        | c' :: rest' =>
          if c' = ']' then some (Json.arr [], rest')
          else (parseElems fuel (c' :: rest')).map (fun p => (Json.arr p.1, p.2))
      else if c = 't' then
        match rest with
        | r1 :: r2 :: r3 :: rest' =>
          if r1 = 'r' ∧ r2 = 'u' ∧ r3 = 'e' then some (Json.bool true, rest') else none
        | _ => none
      else if c = 'f' then
        match rest with
        | r1 :: r2 :: r3 :: r4 :: rest' =>
          if r1 = 'a' ∧ r2 = 'l' ∧ r3 = 's' ∧ r4 = 'e' then some (Json.bool false, rest')
          else none
        | _ => none
      else if c = 'n' then
        match rest with
        | r1 :: r2 :: r3 :: rest' =>
          if r1 = 'u' ∧ r2 = 'l' ∧ r3 = 'l' then some (Json.null, rest') else none
        | _ => none
      else if c.isDigit || c == '-' then
        let (tok, r) := takeWhileL isNumChar (c :: rest)
        if validNum tok then some (Json.num (String.mk tok), r) else none
      else none

/-- Parse the elements of a non-empty JSON array up to and including `]`. -/
def parseElems : Nat → List Char → Option (List Json × List Char)
  | 0, _ => none
  | fuel + 1, cs =>
    match parseValue fuel cs with
    | none => none
    | some (v, r) =>
      match skipWs r with
      | [] => none
      | c :: r' =>
        if c = ',' then (parseElems fuel r').map (fun p => (v :: p.1, p.2))
        else if c = ']' then some ([v], r')
        else none

/-- Parse the members of a non-empty JSON object up to and including `}`. -/
def parseMembers : Nat → List Char → Option (List (String × Json) × List Char)
  | 0, _ => none
  | fuel + 1, cs =>
    match skipWs cs with
    | [] => none
    | c :: rest =>
      if c = '"' then
        match parseStrChars (rest.length + 1) rest with
        | none => none
        | some (k, r1) =>
          match skipWs r1 with
          | [] => none
          | c' :: r2 =>
            if c' = ':' then
              match parseValue fuel r2 with
              | none => none
              | some (v, r3) =>
                match skipWs r3 with
                | [] => none
                | c'' :: r4 =>
                  if c'' = ',' then
                    (parseMembers fuel r4).map (fun p => ((String.mk k, v) :: p.1, p.2))
                  else if c'' = '}' then some ([(String.mk k, v)], r4)
                  else none
            else none
      else none

end

/-- Parse a complete JSON document (one value, optionally surrounded by
whitespace), as `json.loads` does. -/
def parseJson (s : String) : Option Json :=
  match parseValue (s.data.length + 1) s.data with
  | some (v, rest) => if (skipWs rest).isEmpty then some v else none
  | none => none

/-! Rendering to JSON text, mirroring pydantic's `model_dump_json` (serde-style
compact output: `,` and `:` separators without spaces, all fields present,
absent optionals as `null`, strings minimally escaped with `\"`, `\\`, the
short control escapes and `\u00XX` for other control characters). -/

/-- Lower-case hex digit for `n < 16`. -/
def hexDigitChar (n : Nat) : Char :=
  if n < 10 then Char.ofNat ('0'.toNat + n) else Char.ofNat ('a'.toNat + n - 10)

/-- Escape one character for a JSON string literal. -/
def escChar (c : Char) : List Char :=
  if c = '"' then ['\\', '"']
  else if c = '\\' then ['\\', '\\']
  else if c = '\n' then ['\\', 'n']
  else if c = '\r' then ['\\', 'r']
  else if c = '\t' then ['\\', 't']
  else if c = '\x08' then ['\\', 'b']
  else if c = '\x0c' then ['\\', 'f']
  else if c.toNat < 0x20 then
    ['\\', 'u', '0', '0', hexDigitChar (c.toNat / 16), hexDigitChar (c.toNat % 16)]
  else [c]

/-- Escaped body of a JSON string literal. -/
def escString (s : String) : List Char :=
  s.data.foldr (fun c acc => escChar c ++ acc) []

/-- A JSON string literal. -/
def renderStr (s : String) : List Char :=
  '"' :: (escString s ++ ['"'])

/-- Comma-join rendered pieces. -/
def joinComma : List (List Char) → List Char
  | [] => []
  | [x] => x
  | x :: y :: xs => x ++ ',' :: joinComma (y :: xs)

/-- The characters of the literal `null`. -/
def nullChars : List Char := ['n', 'u', 'l', 'l']

/-- The characters of the literal `true`. -/
def trueChars : List Char := ['t', 'r', 'u', 'e']

/-- The characters of the literal `false`. -/
def falseChars : List Char := ['f', 'a', 'l', 's', 'e']

/-- Render `Optional[List[str]]`. -/
def renderOptStrList : Option (List String) → List Char
  | none => nullChars
  | some l => '[' :: (joinComma (l.map renderStr) ++ [']'])

/-- Render `Optional[str]`. -/
def renderOptStr : Option String → List Char
  | none => nullChars
  | some s => renderStr s

/-- Render a boolean. -/
def renderBool : Bool → List Char
  | true => trueChars
  | false => falseChars

/-- Render `Optional[bool]`. -/
def renderOptBool : Option Bool → List Char
  | none => nullChars
  | some b => renderBool b

/-- Render `Optional[Dict[str, str]]`. -/
def renderOptDict : Option (List (String × String)) → List Char
  | none => nullChars
  | some kvs =>
    '{' :: (joinComma (kvs.map (fun p => renderStr p.1 ++ ':' :: renderStr p.2)) ++ ['}'])

/-- One rendered object member. -/
def renderMember (k : String) (v : List Char) : List Char :=
  renderStr k ++ ':' :: v

/-- `BackupTargetSpec` of `src/lib/charms/k8s_backup_libs/v0/backup_target.py`:
the declarative backup specification of one client. -/
structure BackupTargetSpec where
  include_namespaces : Option (List String) := none
  include_resources : Option (List String) := none
  exclude_namespaces : Option (List String) := none
  exclude_resources : Option (List String) := none
  label_selector : Option (List (String × String)) := none
  ttl : Option String := none
  include_cluster_resources : Option Bool := none
deriving DecidableEq, Repr

/-- Last-wins lookup of a key among JSON object members (the dict handed to
pydantic keeps the last of duplicate keys). -/
def objGet (ms : List (String × Json)) (k : String) : Option Json :=
  ms.foldl (fun acc p => if p.1 = k then some p.2 else acc) none

/-- Validate an optional field: absent or `null` gives the default `none`;
a present value must convert. -/
def getOpt {α : Type} (ms : List (String × Json)) (k : String)
    (conv : Json → Option α) : Option (Option α) :=
  match objGet ms k with
  | none => some none
  | some .null => some none
  | some v => (conv v).map some

/-- A JSON string. -/
def asStr : Json → Option String
  | .str s => some s
  | _ => none

/-- A JSON array of strings. -/
def asStrList : Json → Option (List String)
  | .arr es =>
    es.foldr (fun e acc =>
      match e, acc with
      | .str s, some l => some (s :: l)
      | _, _ => none) (some [])
  | _ => none

/-- A JSON boolean. -/
def asBool : Json → Option Bool
  | .bool b => some b
  | _ => none

/-- Insert into a Python dict: the key keeps its first position, the value is
the latest one. -/
def dictInsert (m : List (String × String)) (k v : String) : List (String × String) :=
  if m.any (fun p => p.1 == k) then m.map (fun p => if p.1 = k then (k, v) else p)
  else m ++ [(k, v)]

/-- A JSON object with string values, as a Python dict in insertion order. -/
def asStrDict : Json → Option (List (String × String))
  | .obj ms =>
    ms.foldl (fun acc p =>
      match acc, p.2 with
      | some m, .str v => some (dictInsert m p.1 v)
      | _, _ => none) (some [])
  | _ => none

/-- Pydantic validation of a parsed JSON value against `BackupTargetSpec`:
the value must be an object; each declared field, when present and non-null,
must have the declared shape; unknown members are ignored.  Pydantic never
invokes the dataclass hook `__post_init__` on a `BaseModel`, so the TTL
format check inside it does not run. -/
def BackupTargetSpec.validate (j : Json) : Option BackupTargetSpec :=
  match j with
  | .obj ms =>
    (getOpt ms "include_namespaces" asStrList).bind fun a =>
    (getOpt ms "include_resources" asStrList).bind fun b =>
    (getOpt ms "exclude_namespaces" asStrList).bind fun c =>
    (getOpt ms "exclude_resources" asStrList).bind fun d =>
    (getOpt ms "label_selector" asStrDict).bind fun e =>
    (getOpt ms "ttl" asStr).bind fun f =>
    (getOpt ms "include_cluster_resources" asBool).map fun g =>
    { include_namespaces := a, include_resources := b, exclude_namespaces := c,
      exclude_resources := d, label_selector := e, ttl := f,
      include_cluster_resources := g }
  | _ => none

/-- `BackupTargetSpec.model_validate_json`: parse the text as JSON and
validate the shape; any failure is an exception, embedded as `none`. -/
def BackupTargetSpec.model_validate_json (s : String) : Option BackupTargetSpec :=
  (parseJson s).bind BackupTargetSpec.validate

/-- `BackupTargetSpec.model_dump_json`: all seven fields in declaration order,
compact separators, absent optionals as `null`. -/
def BackupTargetSpec.serialize (x : BackupTargetSpec) : String :=
  String.mk ('{' ::
    (renderMember "include_namespaces" (renderOptStrList x.include_namespaces) ++
     ',' :: renderMember "include_resources" (renderOptStrList x.include_resources) ++
     ',' :: renderMember "exclude_namespaces" (renderOptStrList x.exclude_namespaces) ++
     ',' :: renderMember "exclude_resources" (renderOptStrList x.exclude_resources) ++
     ',' :: renderMember "label_selector" (renderOptDict x.label_selector) ++
     ',' :: renderMember "ttl" (renderOptStr x.ttl) ++
     ',' :: renderMember "include_cluster_resources" (renderOptBool x.include_cluster_resources) ++
     ['}']))

/-! The domain model (`src/src/core/domain.py`) and the reconciliation pass
(`src/src/events/general.py`, `src/src/events/velero_backup.py`,
`src/src/core/context.py`). -/

/-- A relation databag: a string-to-string map with insertion order. -/
abbrev Databag := List (String × String)

/-- Python dict lookup.  The keys of a real dict are unique, so the first
matching entry is the only one. -/
def dbGet : Databag → String → Option String
  | [], _ => none
  | p :: rest, k => if p.1 = k then some p.2 else dbGet rest k

/-- Python `dict.update` / databag `update`: merge the new pairs in, keeping
the position of existing keys. -/
def dbUpdate (b kvs : Databag) : Databag :=
  kvs.foldl (fun m p => dictInsert m p.1 p.2) b

/-- An upstream `k8s-backup-target` relation as seen by the charm:
the truthiness of `relation.app`, the remote application name, the endpoint
name and the remote application databag. -/
structure UpRel where
  has_app : Bool
  app_name : String
  endpoint : String
  remote_data : Databag
deriving DecidableEq, Repr

/-- `BackupTargetInfo` of `src/src/core/domain.py`. -/
structure BackupTargetInfo where
  spec : BackupTargetSpec
  app_name : String
  relation_name : String
  model_name : String
  relation : UpRel
deriving DecidableEq, Repr

/-- Python `a or b` where `a` is an optional string: the empty string is
falsy and falls back to the default. -/
def orDefault (v : Option String) (d : String) : String :=
  match v with
  | some s => if s = "" then d else s
  | none => d

/-- `BackupTargetInfo.from_relation_data`: `None` when the `spec` field is
missing or empty or fails `model_validate_json`; provenance fields fall back
to the relation's remote application name, endpoint name and the default
model name. -/
def BackupTargetInfo.from_relation_data (data : Databag) (rel : UpRel)
    (default_model_name : String) : Option BackupTargetInfo :=
  match dbGet data "spec" with
  | none => none
  | some spec_json =>
    if spec_json = "" then none
    else
      match BackupTargetSpec.model_validate_json spec_json with
      | none => none
      | some spec =>
        some { spec := spec,
               app_name := orDefault (dbGet data "app") rel.app_name,
               relation_name := orDefault (dbGet data "relation_name") rel.endpoint,
               model_name := orDefault (dbGet data "model") default_model_name,
               relation := rel }

/-- Modelled from the spec: `VeleroBackupSpec` comes from
`charms.velero_libs.v0.velero_backup_config`, which is not among this
repository's sources.  Section 6 of the spec fixes its shape: the TargetSpec
JSON shape plus `schedule: string|null, paused: bool, skip_immediately: bool,
use_owner_references_in_backup: bool`. -/
structure VeleroBackupSpec where
  include_namespaces : Option (List String) := none
  include_resources : Option (List String) := none
  exclude_namespaces : Option (List String) := none
  exclude_resources : Option (List String) := none
  label_selector : Option (List (String × String)) := none
  ttl : Option String := none
  include_cluster_resources : Option Bool := none
  schedule : Option String := none
  paused : Bool := false
  skip_immediately : Bool := false
  use_owner_references_in_backup : Bool := false
deriving DecidableEq, Repr

/-- `VeleroBackupSpec.model_dump_json` (shape per spec section 6). -/
def VeleroBackupSpec.serialize (x : VeleroBackupSpec) : String :=
  String.mk ('{' ::
    (renderMember "include_namespaces" (renderOptStrList x.include_namespaces) ++
     ',' :: renderMember "include_resources" (renderOptStrList x.include_resources) ++
     ',' :: renderMember "exclude_namespaces" (renderOptStrList x.exclude_namespaces) ++
     ',' :: renderMember "exclude_resources" (renderOptStrList x.exclude_resources) ++
     ',' :: renderMember "label_selector" (renderOptDict x.label_selector) ++
     ',' :: renderMember "ttl" (renderOptStr x.ttl) ++
     ',' :: renderMember "include_cluster_resources" (renderOptBool x.include_cluster_resources) ++
     ',' :: renderMember "schedule" (renderOptStr x.schedule) ++
     ',' :: renderMember "paused" (renderBool x.paused) ++
     ',' :: renderMember "skip_immediately" (renderBool x.skip_immediately) ++
     ',' :: renderMember "use_owner_references_in_backup" (renderBool x.use_owner_references_in_backup) ++
     ['}']))

/-- Python truthiness of an optional string. -/
def optStrTruthy : Option String → Bool
  | none => false
  | some s => !(s == "")

/-- `BackupTargetInfo.to_velero_spec`: dump the target spec, add `schedule`
only when the configured schedule is truthy, and always set `paused`,
`skip_immediately` and `use_owner_references_in_backup` from the config. -/
def BackupTargetInfo.to_velero_spec (t : BackupTargetInfo) (config : CharmConfig) :
    VeleroBackupSpec :=
  { include_namespaces := t.spec.include_namespaces,
    include_resources := t.spec.include_resources,
    exclude_namespaces := t.spec.exclude_namespaces,
    exclude_resources := t.spec.exclude_resources,
    label_selector := t.spec.label_selector,
    ttl := t.spec.ttl,
    include_cluster_resources := t.spec.include_cluster_resources,
    schedule := if optStrTruthy config.schedule then config.schedule else none,
    paused := config.paused,
    skip_immediately := config.skip_immediately,
    use_owner_references_in_backup := config.use_owner_references_in_backup }

/-- `BackupTargetInfo.to_databag_dict`: the four fixed keys. -/
def BackupTargetInfo.to_databag_dict (t : BackupTargetInfo) (v : VeleroBackupSpec) :
    Databag :=
  [("spec", v.serialize), ("app", t.app_name),
   ("relation_name", t.relation_name), ("model", t.model_name)]

/-- `Context.get_backup_targets`: one record per upstream relation with a
truthy `relation.app` and valid data; the rest are skipped. -/
def get_backup_targets (ups : List UpRel) (model_name : String) :
    List BackupTargetInfo :=
  ups.filterMap (fun rel =>
    if rel.has_app then BackupTargetInfo.from_relation_data rel.remote_data rel model_name
    else none)

/-- The reported operational status. -/
inductive StatusKind where
  | active
  | blocked
  | waiting
deriving DecidableEq, Repr

/-- A unit status: its kind and human-readable message. -/
structure Status where
  kind : StatusKind
  message : String
deriving DecidableEq, Repr

/-- `VeleroBackupEvents.publish_to_relation`: no-op unless leader and the
config is valid; otherwise update the downstream databag with the merged
record of every valid upstream target, in order. -/
def publish_to_relation (is_leader : Bool) (raw : RawConfig) (ups : List UpRel)
    (model_name : String) (bag : Databag) : Databag :=
  if !is_leader then bag
  else
    match CharmConfig.build raw with
    | .error _ => bag
    | .ok config =>
      (get_backup_targets ups model_name).foldl
        (fun b t => dbUpdate b (t.to_databag_dict (t.to_velero_spec config))) bag

/-- `VeleroBackupEvents.publish_to_all_relations`. -/
def publish_to_all_relations (is_leader : Bool) (raw : RawConfig) (ups : List UpRel)
    (model_name : String) (downs : List Databag) : List Databag :=
  if !is_leader then downs
  else downs.map (publish_to_relation is_leader raw ups model_name)

/-- `", ".join(f"'\x7bfield\x7d'" for field in config_errors)`. -/
def joinQuoted (fields : List String) : String :=
  String.intercalate ", " (fields.map (fun f => "'" ++ f ++ "'"))

/-- `GeneralEvents._reconcile`: one reconciliation pass, returning the
reported status and the new downstream databags. -/
def reconcile (is_leader : Bool) (raw : RawConfig) (downs : List Databag)
    (ups : List UpRel) (model_name : String) : Status × List Databag :=
  if !is_leader then
    ({ kind := .active, message := "Unit is ready (standby)" }, downs)
  else
    match config_errors raw with
    | e :: es =>
      ({ kind := .blocked,
         message := "Invalid configuration: " ++ joinQuoted (e :: es) }, downs)
    | [] =>
      if downs.isEmpty then
        ({ kind := .blocked, message := "Missing relation: velero-backup" }, downs)
      else
        let downs' := publish_to_all_relations is_leader raw ups model_name downs
        if ups.isEmpty then
          ({ kind := .waiting, message := "Waiting for k8s-backup-target relation" }, downs')
        else
          match CharmConfig.build raw with
          | .error _ => ({ kind := .active, message := "Manual backup mode" }, downs')
          | .ok config =>
            if config.is_scheduled then
              if config.is_paused then
                ({ kind := .active, message := "Schedule paused" }, downs')
              else
                ({ kind := .active, message := "Schedule: " ++ config.schedule.getD "" }, downs')
            else ({ kind := .active, message := "Manual backup mode" }, downs')

/-! Shared concrete fixtures used by witnesses. -/

/-- A schedule-less raw configuration. -/
def rawManual : RawConfig :=
  { schedule := none, paused := false, skip_immediately := false,
    use_owner_references_in_backup := false }

/-- A raw configuration with the valid schedule `0 2 * * *`. -/
def rawScheduled : RawConfig :=
  { schedule := some "0 2 * * *", paused := false, skip_immediately := false,
    use_owner_references_in_backup := false }

/-- An upstream relation with a valid spec payload. -/
def upstreamValid : UpRel :=
  { has_app := true, app_name := "target-app", endpoint := "k8s-backup-target",
    remote_data := [("app", "target-app"),
                    ("spec", "\x7b\"include_namespaces\": [\"test\"]\x7d")] }

/-- An upstream relation whose spec payload is not valid JSON. -/
def upstreamBadJson : UpRel :=
  { has_app := true, app_name := "bad-app", endpoint := "k8s-backup-target",
    remote_data := [("app", "bad-app"), ("spec", "not-json\x7b")] }

/-! The claim theorems. -/

/-- C1: when the unit is not the leader, the reconciliation pass reports the
fixed standby status and leaves every downstream databag unchanged, whatever
the configuration and links are — the result does not depend on any upstream
payload (no reads) and returns every downstream payload as it was (no
writes). -/
theorem standby_pass_reads_writes_nothing (raw : RawConfig) (downs : List Databag)
    (ups : List UpRel) (model_name : String) :
    reconcile false raw downs ups model_name =
      ({ kind := .active, message := "Unit is ready (standby)" }, downs) := rfl

/-- C2 (code-bug evaluation): with leadership and the invalid schedule
`invalid-cron`, the pass is blocked and performs no writes, but its message is
`Invalid configuration: ''` — the name of the invalid field does not appear in
it, because the model-level validator's error carries an empty location. -/
theorem config_invalid_reports_empty_field_name :
    reconcile true
      { schedule := some "invalid-cron", paused := false,
        skip_immediately := false, use_owner_references_in_backup := false }
      [[("prior", "x")]] [upstreamValid] "mdl" =
      ({ kind := .blocked, message := "Invalid configuration: ''" }, [[("prior", "x")]]) ∧
    ¬ "schedule".data <:+: ("Invalid configuration: ''").data := by
  constructor
  · decide
  · decide

/-- C3 (code-bug evaluation): the string `garbage` does not match the
duration grammar `DURATION_REGEX`, yet constructing a `BackupTargetSpec` from
a payload whose `ttl` is `garbage` succeeds, because pydantic never invokes
the dataclass hook `__post_init__` that holds the TTL format check. -/
theorem ttl_check_never_runs :
    durationMatch "garbage" = false ∧
    BackupTargetSpec.model_validate_json "\x7b\"ttl\": \"garbage\"\x7d" =
      some { ttl := some "garbage" } := by
  constructor
  · decide
  · decide

/-- C6: constructing the configuration with an empty-string schedule always
succeeds (never an error) and normalizes the schedule to absent, and on every
configuration value the derived properties satisfy `is_scheduled` = (schedule
present) and `is_paused` = `is_scheduled` AND `paused`. -/
theorem empty_schedule_normalizes_and_derived_props :
    (∀ p sk o : Bool,
      CharmConfig.build { schedule := some "", paused := p, skip_immediately := sk,
                          use_owner_references_in_backup := o } =
        .ok { schedule := none, paused := p, skip_immediately := sk,
              use_owner_references_in_backup := o }) ∧
    (∀ c : CharmConfig, c.is_scheduled = c.schedule.isSome ∧
      c.is_paused = (c.is_scheduled && c.paused)) := by
  constructor
  · intro p sk o; rfl
  · intro c; exact ⟨rfl, Bool.and_comm c.paused c.is_scheduled⟩

/-- The schedule produced by `blank_string` is never the empty string. -/
theorem blankToNone_ne_empty {x : Option String} {t : String}
    (h : blankToNone x = some t) : t ≠ "" := by
  cases x with
  | none => simp [blankToNone] at h
  | some s =>
    simp only [blankToNone] at h
    split at h
    · exact absurd h (by simp)
    · next hs =>
      injection h with h'
      subst h'
      exact hs

/-- A successfully built configuration holds the blank-normalized raw
schedule. -/
theorem build_ok_schedule {raw : RawConfig} {config : CharmConfig}
    (h : CharmConfig.build raw = .ok config) :
    config.schedule = blankToNone raw.schedule := by
  unfold CharmConfig.build at h
  split at h
  · next s heq =>
    split at h
    · injection h with h'
      subst h'
      rw [heq]
    · exact absurd h (by simp)
  · next heq =>
    injection h with h'
    subst h'
    rw [heq]

/-- C4: merging a target record with a validly constructed configuration
copies every field of the record's spec verbatim into the output; the output
schedule is exactly the configured schedule (present precisely when one is
configured, absent otherwise); and paused, skip_immediately and
use_owner_references_in_backup are always overwritten with the
configuration's values. -/
theorem merge_copies_spec_and_overwrites_schedule_fields
    (t : BackupTargetInfo) (raw : RawConfig) (config : CharmConfig)
    (h : CharmConfig.build raw = .ok config) :
    t.to_velero_spec config =
      { include_namespaces := t.spec.include_namespaces,
        include_resources := t.spec.include_resources,
        exclude_namespaces := t.spec.exclude_namespaces,
        exclude_resources := t.spec.exclude_resources,
        label_selector := t.spec.label_selector,
        ttl := t.spec.ttl,
        include_cluster_resources := t.spec.include_cluster_resources,
        schedule := config.schedule,
        paused := config.paused,
        skip_immediately := config.skip_immediately,
        use_owner_references_in_backup := config.use_owner_references_in_backup } := by
  have hsch : (if optStrTruthy config.schedule then config.schedule else none) =
      config.schedule := by
    cases hcs : config.schedule with
    | none => simp [optStrTruthy]
    | some s =>
      have hne : s ≠ "" := by
        refine blankToNone_ne_empty (x := raw.schedule) ?_
        rw [← build_ok_schedule h, hcs]
      simp [optStrTruthy, beq_iff_eq, hne]
  unfold BackupTargetInfo.to_velero_spec
  rw [hsch]

/-- The configuration built from `rawScheduled`. -/
def cfgScheduled : CharmConfig :=
  { schedule := some "0 2 * * *", paused := false, skip_immediately := false,
    use_owner_references_in_backup := false }

/-- A concrete target record. -/
def targetFixture : BackupTargetInfo :=
  { spec := { include_namespaces := some ["test-namespace"], ttl := some "24h" },
    app_name := "my-app", relation_name := "backup", model_name := "my-model",
    relation := upstreamValid }

/-- Witness for C4 at a concrete record and configuration. -/
theorem merge_copies_witness :
    CharmConfig.build rawScheduled = .ok cfgScheduled ∧
    targetFixture.to_velero_spec cfgScheduled =
      { include_namespaces := targetFixture.spec.include_namespaces,
        include_resources := targetFixture.spec.include_resources,
        exclude_namespaces := targetFixture.spec.exclude_namespaces,
        exclude_resources := targetFixture.spec.exclude_resources,
        label_selector := targetFixture.spec.label_selector,
        ttl := targetFixture.spec.ttl,
        include_cluster_resources := targetFixture.spec.include_cluster_resources,
        schedule := cfgScheduled.schedule,
        paused := cfgScheduled.paused,
        skip_immediately := cfgScheduled.skip_immediately,
        use_owner_references_in_backup := cfgScheduled.use_owner_references_in_backup } :=
  ⟨by rfl,
   merge_copies_spec_and_overwrites_schedule_fields targetFixture rawScheduled cfgScheduled
     (by rfl)⟩

/-- C5 (counterexample): `1,* * * * *` belongs to the grammar as the claim
words it — its first field is a comma-separated list of a number and `*` —
yet construction rejects it, because `CRON_FIELD` admits only numbers and
ranges inside comma-separated lists. -/
theorem claimed_cron_grammar_disagrees :
    specCronMatch "1,* * * * *" = true ∧
    CharmConfig.build { schedule := some "1,* * * * *", paused := false,
                        skip_immediately := false,
                        use_owner_references_in_backup := false } =
      .error (cronErrorMsg "1,* * * * *") := by
  constructor
  · decide
  · rfl

/-- C5 (amended): for every non-empty schedule string, construction succeeds
exactly when the string has 5 or 6 whitespace-separated fields each matching
`*`, `?`, `*/N`, or a comma-separated list of numbers and ranges `A-B`
(a single number or range being a one-element list); otherwise it fails with
a validation error carrying the offending value. -/
theorem schedule_validation_iff_cron_grammar (s : String) (p sk o : Bool)
    (h : s ≠ "") :
    (CharmConfig.build { schedule := some s, paused := p, skip_immediately := sk,
                         use_owner_references_in_backup := o } =
       .ok { schedule := some s, paused := p, skip_immediately := sk,
             use_owner_references_in_backup := o } ↔ cronMatch s = true) ∧
    (cronMatch s = false →
      CharmConfig.build { schedule := some s, paused := p, skip_immediately := sk,
                          use_owner_references_in_backup := o } =
        .error (cronErrorMsg s)) := by
  have hb : blankToNone (some s) = some s := by simp [blankToNone, h]
  unfold CharmConfig.build
  rw [hb]
  cases hc : cronMatch s <;> simp [hc]

/-- Witness for C5's amended grammar statement at `0 2 * * *`. -/
theorem schedule_validation_iff_witness :
    CharmConfig.build { schedule := some "0 2 * * *", paused := false,
                        skip_immediately := false,
                        use_owner_references_in_backup := false } =
      .ok { schedule := some "0 2 * * *", paused := false, skip_immediately := false,
            use_owner_references_in_backup := false } :=
  (schedule_validation_iff_cron_grammar "0 2 * * *" false false false (by decide)).1.mpr
    (by decide)

/-- C7: with leadership, a valid configuration, at least one downstream link
and zero upstream links, the pass reports the waiting status and performs no
write: every downstream databag is returned unchanged. -/
theorem no_upstream_waiting_no_writes (raw : RawConfig) (config : CharmConfig)
    (downs : List Databag) (model_name : String)
    (hok : CharmConfig.build raw = .ok config) (hdowns : downs ≠ []) :
    reconcile true raw downs [] model_name =
      ({ kind := .waiting, message := "Waiting for k8s-backup-target relation" }, downs) := by
  have herr : config_errors raw = [] := by
    unfold config_errors
    rw [hok]
  have hne : downs.isEmpty = false := by
    cases downs with
    | nil => exact absurd rfl hdowns
    | cons d ds => rfl
  have hpub : ∀ bag, publish_to_relation true raw [] model_name bag = bag := by
    intro bag
    unfold publish_to_relation
    rw [hok]
    rfl
  have hpubf : publish_to_relation true raw [] model_name = id := funext hpub
  unfold reconcile publish_to_all_relations
  rw [herr]
  simp [hne, hpubf]

/-- Witness for C7 at a concrete configuration and downstream link. -/
theorem no_upstream_waiting_witness :
    CharmConfig.build rawScheduled = .ok cfgScheduled ∧
    ([[("k", "v")]] : List Databag) ≠ [] ∧
    reconcile true rawScheduled [[("k", "v")]] [] "mdl" =
      ({ kind := .waiting, message := "Waiting for k8s-backup-target relation" },
       [[("k", "v")]]) :=
  ⟨by rfl, by decide,
   no_upstream_waiting_no_writes rawScheduled cfgScheduled [[("k", "v")]] "mdl"
     (by rfl) (by decide)⟩

/-- The written-back downstream databags of a pass: the publish step's output
when the unit leads with a valid configuration and at least one downstream
link, the unchanged databags otherwise. -/
theorem reconcile_snd (lead : Bool) (raw : RawConfig) (downs : List Databag)
    (ups : List UpRel) (mn : String) :
    (reconcile lead raw downs ups mn).2 =
      if lead && (config_errors raw).isEmpty && !downs.isEmpty then
        publish_to_all_relations lead raw ups mn downs
      else downs := by
  unfold reconcile
  cases lead with
  | false => rfl
  | true =>
    cases herr : config_errors raw with
    | cons e es => simp
    | nil =>
      by_cases hd : downs.isEmpty
      · simp [hd]
      · cases hu : ups.isEmpty
        · cases hb : CharmConfig.build raw with
          | error msg => simp [hd, hb]
          | ok config =>
            by_cases hs : config.is_scheduled
            · by_cases hp : config.is_paused
              · simp [hd, hb, hs, hp]
              · simp [hd, hb, hs, hp]
            · simp [hd, hb, hs]
        · simp [hd]

/-- C8: an upstream link whose payload has no spec key, an empty-string spec,
or a spec that fails JSON or schema validation yields no record (`none`)
rather than an error; target enumeration skips it; and the pass publishes the
same output with or without it — the remaining links' records still get
published. -/
theorem invalid_upstream_link_skipped (rel : UpRel) (default_model_name : String)
    (h : ∀ s, dbGet rel.remote_data "spec" = some s → s ≠ "" →
      BackupTargetSpec.model_validate_json s = none) :
    BackupTargetInfo.from_relation_data rel.remote_data rel default_model_name = none ∧
    (∀ l₁ l₂ : List UpRel,
      get_backup_targets (l₁ ++ rel :: l₂) default_model_name =
        get_backup_targets (l₁ ++ l₂) default_model_name) ∧
    (∀ (is_leader : Bool) (raw : RawConfig) (downs : List Databag) (l₁ l₂ : List UpRel),
      (reconcile is_leader raw downs (l₁ ++ rel :: l₂) default_model_name).2 =
        (reconcile is_leader raw downs (l₁ ++ l₂) default_model_name).2) := by
  have h1 : BackupTargetInfo.from_relation_data rel.remote_data rel default_model_name =
      none := by
    unfold BackupTargetInfo.from_relation_data
    cases hs : dbGet rel.remote_data "spec" with
    | none => rfl
    | some s =>
      by_cases hse : s = ""
      · simp [hse]
      · simp [hse, h s hs hse]
  have h2 : ∀ l₁ l₂ : List UpRel,
      get_backup_targets (l₁ ++ rel :: l₂) default_model_name =
        get_backup_targets (l₁ ++ l₂) default_model_name := by
    intro l₁ l₂
    unfold get_backup_targets
    rw [List.filterMap_append, List.filterMap_append, List.filterMap_cons]
    have hrel : (if rel.has_app then
        BackupTargetInfo.from_relation_data rel.remote_data rel default_model_name
      else none) = none := by
      cases rel.has_app <;> simp [h1]
    rw [hrel]
  refine ⟨h1, h2, ?_⟩
  intro lead raw downs l₁ l₂
  have hf : publish_to_relation lead raw (l₁ ++ rel :: l₂) default_model_name =
      publish_to_relation lead raw (l₁ ++ l₂) default_model_name := by
    funext bag
    simp [publish_to_relation, h2 l₁ l₂]
  have hpe : publish_to_all_relations lead raw (l₁ ++ rel :: l₂) default_model_name downs =
      publish_to_all_relations lead raw (l₁ ++ l₂) default_model_name downs := by
    simp [publish_to_all_relations, hf]
  rw [reconcile_snd, reconcile_snd, hpe]

/-- Witness for C8: the malformed-JSON upstream link yields no record, is
skipped, and the pass's writes are those of the remaining valid link alone. -/
theorem invalid_upstream_link_skipped_witness :
    BackupTargetInfo.from_relation_data upstreamBadJson.remote_data upstreamBadJson "mdl" =
      none ∧
    get_backup_targets [upstreamValid, upstreamBadJson] "mdl" =
      get_backup_targets [upstreamValid] "mdl" ∧
    (reconcile true rawScheduled [[]] [upstreamValid, upstreamBadJson] "mdl").2 =
      (reconcile true rawScheduled [[]] [upstreamValid] "mdl").2 := by
  have h := invalid_upstream_link_skipped upstreamBadJson "mdl" (fun s hs hne => by
    rw [show dbGet upstreamBadJson.remote_data "spec" = some "not-json\x7b" from rfl] at hs
    injection hs with hs'
    subst hs'
    decide)
  exact ⟨h.1, h.2.1 [upstreamValid] [], h.2.2 true rawScheduled [[]] [upstreamValid] []⟩

/-- A key matching no entry of a databag looks up to nothing. -/
theorem dbGet_none_of_all_ne (m : Databag) (k : String)
    (h : ∀ p ∈ m, p.1 ≠ k) : dbGet m k = none := by
  induction m with
  | nil => rfl
  | cons p rest ih =>
    show (if p.1 = k then some p.2 else dbGet rest k) = none
    rw [if_neg (h p (by simp))]
    exact ih (fun q hq => h q (by simp [hq]))

/-- Replacing the entries of key `k` makes `k` look up to the new value when
some entry had it. -/
theorem dbGet_map_replace_same (m : Databag) (k v : String) :
    dbGet (m.map (fun p => if p.1 = k then (k, v) else p)) k =
      if m.any (fun p => p.1 == k) then some v else none := by
  induction m with
  | nil => rfl
  | cons p rest ih =>
    by_cases hp : p.1 = k
    · simp [dbGet, hp, ih]
    · have hb : (p.1 == k) = false := by simp [hp]
      cases ha : rest.any (fun p => p.1 == k) with
      | true => simp [dbGet, hp, ih, hb, ha]
      | false => simp [dbGet, hp, ih, hb, ha]

/-- Replacing the entries of key `k` leaves other keys' lookups unchanged. -/
theorem dbGet_map_replace_other (m : Databag) (k v k' : String)
    (h : k ≠ k') :
    dbGet (m.map (fun p => if p.1 = k then (k, v) else p)) k' = dbGet m k' := by
  induction m with
  | nil => rfl
  | cons p rest ih =>
    by_cases hp : p.1 = k
    · simp [dbGet, hp, ih, h]
    · simp [dbGet, hp, ih]

/-- Lookup through an append when the left part misses the key. -/
theorem dbGet_append_left_none (m₁ m₂ : Databag) (k : String)
    (h : dbGet m₁ k = none) : dbGet (m₁ ++ m₂) k = dbGet m₂ k := by
  induction m₁ with
  | nil => rfl
  | cons p rest ih =>
    by_cases hp : p.1 = k
    · exact absurd h (by simp [dbGet, hp])
    · rw [show dbGet (p :: rest) k = dbGet rest k from by simp [dbGet, hp]] at h
      simpa [dbGet, hp] using ih h

/-- Lookup through an append when the left part has the key. -/
theorem dbGet_append_left_some (m₁ m₂ : Databag) (k v : String)
    (h : dbGet m₁ k = some v) : dbGet (m₁ ++ m₂) k = some v := by
  induction m₁ with
  | nil => exact absurd h (by simp [dbGet])
  | cons p rest ih =>
    by_cases hp : p.1 = k
    · rw [show dbGet (p :: rest) k = some p.2 from by simp [dbGet, hp]] at h
      simp [dbGet, hp, h]
    · rw [show dbGet (p :: rest) k = dbGet rest k from by simp [dbGet, hp]] at h
      simpa [dbGet, hp] using ih h

/-- After a dict insert, the inserted key looks up to the inserted value. -/
theorem dbGet_dictInsert_same (m : Databag) (k v : String) :
    dbGet (dictInsert m k v) k = some v := by
  unfold dictInsert
  split
  · next hany => rw [dbGet_map_replace_same]; simp [hany]
  · next hany =>
    have hnone : dbGet m k = none := by
      refine dbGet_none_of_all_ne m k (fun p hp => ?_)
      intro hc
      exact hany (List.any_eq_true.mpr ⟨p, hp, by simp [hc]⟩)
    rw [dbGet_append_left_none _ _ _ hnone]
    simp [dbGet]

/-- A dict insert leaves other keys' lookups unchanged. -/
theorem dbGet_dictInsert_other (m : Databag) (k v k' : String)
    (h : k ≠ k') :
    dbGet (dictInsert m k v) k' = dbGet m k' := by
  unfold dictInsert
  split
  · exact dbGet_map_replace_other m k v k' h
  · cases hm : dbGet m k' with
    | some w =>
      rw [dbGet_append_left_some _ _ _ _ hm]
    | none =>
      rw [dbGet_append_left_none _ _ _ hm]
      simp [dbGet, h]

/-- Lookup after a dict update with unique update keys: updated keys read the
new values, others read the old databag. -/
theorem dbGet_dbUpdate (b kvs : Databag) (k : String)
    (hnd : (kvs.map Prod.fst).Nodup) :
    dbGet (dbUpdate b kvs) k =
      match dbGet kvs k with
      | some v => some v
      | none => dbGet b k := by
  induction kvs generalizing b with
  | nil => rfl
  | cons p rest ih =>
    have hmem : p.1 ∉ rest.map Prod.fst := by
      have hc := hnd
      simp only [List.map_cons, List.nodup_cons] at hc
      exact hc.1
    have hnd' : (rest.map Prod.fst).Nodup := by
      have hc := hnd
      simp only [List.map_cons, List.nodup_cons] at hc
      exact hc.2
    rw [show dbUpdate b (p :: rest) = dbUpdate (dictInsert b p.1 p.2) rest from rfl]
    rw [ih _ hnd']
    by_cases hk : p.1 = k
    · have hr : dbGet rest k = none := by
        refine dbGet_none_of_all_ne rest k (fun q hq hqk => ?_)
        have hkmem : k ∈ rest.map Prod.fst := hqk ▸ List.mem_map_of_mem Prod.fst hq
        exact (hk ▸ hmem) hkmem
      rw [hr, show dbGet (p :: rest) k = some p.2 from by simp [dbGet, hk]]
      exact hk ▸ dbGet_dictInsert_same b p.1 p.2
    · cases hr : dbGet rest k with
      | some w => simp [dbGet, hk, hr]
      | none => simp [dbGet, hk, hr, dbGet_dictInsert_other _ _ _ _ hk]

/-- After folding the publish updates of a non-empty target list over a
databag, each of the four published keys reads the last target's value. -/
theorem dbGet_publish_foldl (config : CharmConfig) (targets : List BackupTargetInfo)
    (t : BackupTargetInfo) (hlast : targets.getLast? = some t) (bag : Databag)
    (k : String) (hk : k = "spec" ∨ k = "app" ∨ k = "relation_name" ∨ k = "model") :
    dbGet (targets.foldl
      (fun b u => dbUpdate b (u.to_databag_dict (u.to_velero_spec config))) bag) k =
      dbGet (t.to_databag_dict (t.to_velero_spec config)) k := by
  induction targets generalizing bag with
  | nil => simp at hlast
  | cons u rest ih =>
    cases rest with
    | nil =>
      have ht : u = t := by simpa using hlast
      subst ht
      show dbGet (dbUpdate bag (u.to_databag_dict (u.to_velero_spec config))) k = _
      rw [dbGet_dbUpdate _ _ _ (by
        show (["spec", "app", "relation_name", "model"] : List String).Nodup
        decide)]
      rcases hk with rfl | rfl | rfl | rfl <;> rfl
    | cons u' rest' =>
      have hlast' : (u' :: rest').getLast? = some t := by
        rw [List.getLast?_cons_cons] at hlast
        exact hlast
      rw [List.foldl_cons]
      exact ih hlast' _

/-- C10: every published record goes out under the same four fixed databag
keys, so when two or more targets publish in one pass the downstream databag
ends up holding, under those keys, exactly the record of the last target in
iteration order — the earlier targets' records are overwritten. -/
theorem publish_fixed_keys_last_target_wins (raw : RawConfig) (config : CharmConfig)
    (ups : List UpRel) (mn : String) (bag : Databag) (t : BackupTargetInfo)
    (hok : CharmConfig.build raw = .ok config)
    (hlast : (get_backup_targets ups mn).getLast? = some t) :
    (∀ (u : BackupTargetInfo) (v : VeleroBackupSpec),
      (u.to_databag_dict v).map Prod.fst = ["spec", "app", "relation_name", "model"]) ∧
    (∀ k, (k = "spec" ∨ k = "app" ∨ k = "relation_name" ∨ k = "model") →
      dbGet (publish_to_relation true raw ups mn bag) k =
        dbGet (t.to_databag_dict (t.to_velero_spec config)) k) := by
  refine ⟨fun u v => rfl, fun k hk => ?_⟩
  have hp : publish_to_relation true raw ups mn bag =
      (get_backup_targets ups mn).foldl
        (fun b u => dbUpdate b (u.to_databag_dict (u.to_velero_spec config))) bag := by
    unfold publish_to_relation
    rw [hok]
    rfl
  rw [hp]
  exact dbGet_publish_foldl config _ t hlast bag k hk

/-- A second upstream relation with a valid spec payload. -/
def upstreamValid2 : UpRel :=
  { has_app := true, app_name := "app2", endpoint := "k8s-backup-target",
    remote_data := [("app", "app2"),
                    ("spec", "\x7b\"include_namespaces\": [\"ns2\"]\x7d")] }

/-- The target record built from `upstreamValid2`. -/
def target2 : BackupTargetInfo :=
  { spec := { include_namespaces := some ["ns2"] },
    app_name := "app2", relation_name := "k8s-backup-target", model_name := "mdl",
    relation := upstreamValid2 }

/-- Witness for C10: publishing two valid targets leaves the second one's
record under the fixed keys. -/
theorem publish_fixed_keys_witness :
    (get_backup_targets [upstreamValid, upstreamValid2] "mdl").getLast? = some target2 ∧
    dbGet (publish_to_relation true rawScheduled [upstreamValid, upstreamValid2] "mdl" [])
        "app" =
      dbGet (target2.to_databag_dict (target2.to_velero_spec cfgScheduled)) "app" := by
  have h := publish_fixed_keys_last_target_wins rawScheduled cfgScheduled
    [upstreamValid, upstreamValid2] "mdl" [] target2 (by rfl) (by decide)
  exact ⟨by decide, h.2 "app" (by simp)⟩


def escList (cs : List Char) : List Char :=
  cs.foldr (fun c acc => escChar c ++ acc) []

theorem hexVal?_hexDigitChar : ∀ m : Fin 16, hexVal? (hexDigitChar m.val) = some m.val := by
  decide

theorem parseStrChars_succ (g : Nat) (cs : List Char) :
    parseStrChars (g + 1) cs =
      match strChunk cs with
      | none => none
      | some (none, rest) => some ([], rest)
      | some (some d, rest) => (parseStrChars g rest).map (fun p => (d :: p.1, p.2)) := rfl

theorem strChunk_ordinary (c : Char) (h1 : c ≠ '"') (h2 : c ≠ '\\')
    (h3 : ¬ c.toNat < 0x20) (tail : List Char) :
    strChunk (c :: tail) = some (some c, tail) := by
  simp only [strChunk]
  rw [if_neg h1, if_neg h2, if_neg h3]

theorem strChunk_uEsc_low (h1 h2 h3 h4 : Char) (n : Nat)
    (hx : hex4? h1 h2 h3 h4 = some n) (hlow : n < 0xD800) (tail : List Char) :
    strChunk ('\\' :: 'u' :: h1 :: h2 :: h3 :: h4 :: tail) =
      some (some (Char.ofNat n), tail) := by
  simp only [strChunk, reduceIte, hx]
  have hA : ¬ ((decide (0xD800 ≤ n) && decide (n < 0xDC00)) = true) := by
    simp only [Bool.and_eq_true, decide_eq_true_eq]
    omega
  have hB : ¬ ((decide (0xDC00 ≤ n) && decide (n < 0xE000)) = true) := by
    simp only [Bool.and_eq_true, decide_eq_true_eq]
    omega
  rw [if_neg hA, if_neg hB, if_neg (show ('\\' : Char) ≠ '"' from by decide)]

theorem strChunk_escChar (c : Char) (tail : List Char) :
    strChunk (escChar c ++ tail) = some (some c, tail) := by
  by_cases h1 : c = '"'
  · subst h1; rfl
  by_cases h2 : c = '\\'
  · subst h2; rfl
  by_cases h3 : c = '\n'
  · subst h3; rfl
  by_cases h4 : c = '\r'
  · subst h4; rfl
  by_cases h5 : c = '\t'
  · subst h5; rfl
  by_cases h6 : c = '\x08'
  · subst h6; rfl
  by_cases h7 : c = '\x0c'
  · subst h7; rfl
  by_cases h8 : c.toNat < 0x20
  · have hesc : escChar c = ['\\', 'u', '0', '0',
        hexDigitChar (c.toNat / 16), hexDigitChar (c.toNat % 16)] := by
      unfold escChar
      rw [if_neg h1, if_neg h2, if_neg h3, if_neg h4, if_neg h5, if_neg h6, if_neg h7,
        if_pos h8]
    rw [hesc]
    have hd1 : hexVal? (hexDigitChar (c.toNat / 16)) = some (c.toNat / 16) :=
      hexVal?_hexDigitChar ⟨_, by omega⟩
    have hd2 : hexVal? (hexDigitChar (c.toNat % 16)) = some (c.toNat % 16) :=
      hexVal?_hexDigitChar ⟨_, by omega⟩
    have hx : hex4? '0' '0' (hexDigitChar (c.toNat / 16)) (hexDigitChar (c.toNat % 16)) =
        some (c.toNat) := by
      unfold hex4?
      rw [show hexVal? '0' = some 0 from rfl, hd1, hd2]
      exact congrArg some (by omega)
    rw [List.cons_append, List.cons_append, List.cons_append, List.cons_append,
      List.cons_append, List.cons_append, List.nil_append]
    rw [strChunk_uEsc_low _ _ _ _ (c.toNat) hx (by omega) tail, Char.ofNat_toNat]
  · have hesc : escChar c = [c] := by
      unfold escChar
      rw [if_neg h1, if_neg h2, if_neg h3, if_neg h4, if_neg h5, if_neg h6, if_neg h7,
        if_neg h8]
    rw [hesc]
    exact strChunk_ordinary c h1 h2 h8 tail

theorem parseStrChars_escList (cs : List Char) (g : Nat) (rest : List Char) :
    parseStrChars (g + cs.length + 1) (escList cs ++ '"' :: rest) = some (cs, rest) := by
  induction cs generalizing g with
  | nil => rfl
  | cons c cs ih =>
    show parseStrChars (g + (cs.length + 1) + 1) ((escChar c ++ escList cs) ++ '"' :: rest) = _
    rw [List.append_assoc,
      show g + (cs.length + 1) + 1 = (g + cs.length + 1) + 1 from by omega,
      parseStrChars_succ, strChunk_escChar]
    show (parseStrChars (g + cs.length + 1) (escList cs ++ '"' :: rest)).map
        (fun p => (c :: p.1, p.2)) = some (c :: cs, rest)
    rw [ih g]
    rfl

end VeleroIntegrator
namespace VeleroIntegrator
theorem parseValue_quote (g : Nat) (rest : List Char) :
    parseValue (g + 1) ('"' :: rest) =
      (parseStrChars (rest.length + 1) rest).map (fun p => (Json.str (String.mk p.1), p.2)) := rfl
theorem parseValue_null (g : Nat) (rest : List Char) :
    parseValue (g + 1) ('n' :: 'u' :: 'l' :: 'l' :: rest) = some (.null, rest) := rfl
theorem parseValue_true (g : Nat) (rest : List Char) :
    parseValue (g + 1) ('t' :: 'r' :: 'u' :: 'e' :: rest) = some (.bool true, rest) := rfl
theorem parseValue_false (g : Nat) (rest : List Char) :
    parseValue (g + 1) ('f' :: 'a' :: 'l' :: 's' :: 'e' :: rest) = some (.bool false, rest) := rfl
theorem parseValue_arr_empty (g : Nat) (rest : List Char) :
    parseValue (g + 1) ('[' :: ']' :: rest) = some (.arr [], rest) := rfl
theorem parseValue_arr_quote (g : Nat) (cs : List Char) :
    parseValue (g + 1) ('[' :: '"' :: cs) =
      (parseElems g ('"' :: cs)).map (fun p => (Json.arr p.1, p.2)) := rfl
theorem parseValue_obj_empty (g : Nat) (rest : List Char) :
    parseValue (g + 1) ('{' :: '}' :: rest) = some (.obj [], rest) := rfl
theorem parseValue_obj_quote (g : Nat) (cs : List Char) :
    parseValue (g + 1) ('{' :: '"' :: cs) =
      (parseMembers g ('"' :: cs)).map (fun p => (Json.obj p.1, p.2)) := rfl
theorem parseElems_succ (g : Nat) (cs : List Char) :
    parseElems (g + 1) cs =
      match parseValue g cs with
      | none => none
      | some (v, r) =>
        match skipWs r with
        | [] => none
        | c :: r' =>
          if c = ',' then (parseElems g r').map (fun p => (v :: p.1, p.2))
          else if c = ']' then some ([v], r')
          else none := rfl
theorem parseMembers_quote (g : Nat) (cs : List Char) :
    parseMembers (g + 1) ('"' :: cs) =
      match parseStrChars (cs.length + 1) cs with
      | none => none
      | some (k, r1) =>
        match skipWs r1 with
        | [] => none
        | c' :: r2 =>
          if c' = ':' then
            match parseValue g r2 with
            | none => none
            | some (v, r3) =>
              match skipWs r3 with
              | [] => none
              | c'' :: r4 =>
                if c'' = ',' then
                  (parseMembers g r4).map (fun p => ((String.mk k, v) :: p.1, p.2))
                else if c'' = '}' then some ([(String.mk k, v)], r4)
                else none
          else none := rfl
end VeleroIntegrator
namespace VeleroIntegrator

/-- `txt` followed by any continuation parses as the value `v`, consuming
exactly `txt`, whenever the fuel is at least `c`. -/
def ParsesTo (txt : List Char) (v : Json) (c : Nat) : Prop :=
  ∀ g rest, parseValue (g + c) (txt ++ rest) = some (v, rest)

theorem escChar_length_pos (c : Char) : 1 ≤ (escChar c).length := by
  unfold escChar
  repeat' split
  all_goals simp

theorem length_le_escList (cs : List Char) : cs.length ≤ (escList cs).length := by
  induction cs with
  | nil => simp [escList]
  | cons c cs ih =>
    show cs.length + 1 ≤ (escChar c ++ escList cs).length
    rw [List.length_append]
    have := escChar_length_pos c
    omega

theorem parseStrChars_escList_atLen (cs rest : List Char) :
    parseStrChars ((escList cs ++ '"' :: rest).length + 1) (escList cs ++ '"' :: rest) =
      some (cs, rest) := by
  have hlen : cs.length ≤ (escList cs).length := length_le_escList cs
  rw [show (escList cs ++ '"' :: rest).length + 1 =
      ((escList cs).length + rest.length + 1 - cs.length) + cs.length + 1 from by
    simp [List.length_append]
    omega]
  exact parseStrChars_escList cs _ rest

theorem parsesTo_renderStr (s : String) : ParsesTo (renderStr s) (.str s) 1 := by
  intro g rest
  show parseValue (g + 1) (('"' :: (escString s ++ ['"'])) ++ rest) = _
  rw [List.cons_append, List.append_assoc,
    show (['"'] ++ rest : List Char) = '"' :: rest from rfl, parseValue_quote,
    show escString s = escList s.data from rfl, parseStrChars_escList_atLen s.data rest]
  rfl

def jsonOfOptStr : Option String → Json
  | none => .null
  | some s => .str s

def jsonOfOptBool : Option Bool → Json
  | none => .null
  | some b => .bool b

def jsonOfOptStrList : Option (List String) → Json
  | none => .null
  | some l => .arr (l.map Json.str)

def jsonOfOptDict : Option (List (String × String)) → Json
  | none => .null
  | some m => .obj (m.map (fun q => (q.1, Json.str q.2)))

theorem parsesTo_null : ParsesTo nullChars .null 1 := fun g rest => parseValue_null g rest

theorem parsesTo_bool (b : Bool) : ParsesTo (renderBool b) (.bool b) 1 := by
  cases b
  · exact fun g rest => parseValue_false g rest
  · exact fun g rest => parseValue_true g rest

theorem parsesTo_optStr (o : Option String) : ParsesTo (renderOptStr o) (jsonOfOptStr o) 1 := by
  cases o
  · exact parsesTo_null
  · exact parsesTo_renderStr _

theorem parsesTo_optBool (o : Option Bool) : ParsesTo (renderOptBool o) (jsonOfOptBool o) 1 := by
  cases o
  · exact parsesTo_null
  · exact parsesTo_bool _

end VeleroIntegrator
namespace VeleroIntegrator

/-- The elements text followed by `]` and any continuation parses as the
element list, for any fuel of at least `c`. -/
def ElemsTo (txt : List Char) (vs : List Json) (c : Nat) : Prop :=
  ∀ g rest, parseElems (g + c) (txt ++ ']' :: rest) = some (vs, rest)

theorem elemsTo_last {txt v c} (h : ParsesTo txt v c) : ElemsTo txt [v] (c + 1) := by
  intro g rest
  rw [show g + (c + 1) = (g + c) + 1 from by omega, parseElems_succ, h g (']' :: rest)]
  rfl

theorem elemsTo_cons {txt v c} (h : ParsesTo txt v c) {cont vs d} (hcont : ElemsTo cont vs d) :
    ElemsTo (txt ++ ',' :: cont) (v :: vs) (c + d + 1) := by
  intro g rest
  rw [show (txt ++ ',' :: cont) ++ ']' :: rest = txt ++ ',' :: (cont ++ ']' :: rest) from by
    simp]
  rw [show g + (c + d + 1) = ((g + d) + c) + 1 from by omega, parseElems_succ,
    h (g + d) (',' :: (cont ++ ']' :: rest))]
  show (parseElems ((g + d) + c) (cont ++ ']' :: rest)).map (fun p => (v :: p.1, p.2)) = _
  rw [show (g + d) + c = (g + c) + d from by omega, hcont (g + c) rest]
  rfl

def joinTail : List (List Char) → List Char
  | [] => []
  | y :: ys => ',' :: joinComma (y :: ys)

theorem joinComma_cons (x : List Char) (xs : List (List Char)) :
    joinComma (x :: xs) = x ++ joinTail xs := by
  cases xs with
  | nil => simp [joinComma, joinTail]
  | cons y ys => simp [joinComma, joinTail]

theorem elemsTo_strs (s : String) (l : List String) :
    ElemsTo (joinComma ((s :: l).map renderStr)) ((s :: l).map Json.str)
      (2 * l.length + 2) := by
  induction l generalizing s with
  | nil => exact elemsTo_last (parsesTo_renderStr s)
  | cons s' l ih =>
    rw [show ((s :: s' :: l).map renderStr) = renderStr s :: ((s' :: l).map renderStr) from
      rfl, joinComma_cons]
    rw [show joinTail ((s' :: l).map renderStr) = ',' :: joinComma ((s' :: l).map renderStr)
      from rfl]
    rw [show (2 : Nat) * (s' :: l).length + 2 = 1 + (2 * l.length + 2) + 1 from by
      simp [List.length_cons]; omega]
    exact elemsTo_cons (parsesTo_renderStr s) (ih s')

theorem parsesTo_arr_of_elems {txt vs c} (he : ElemsTo txt vs c)
    (hh : ∃ cs', txt = '"' :: cs') :
    ParsesTo ('[' :: (txt ++ [']'])) (.arr vs) (c + 1) := by
  intro g rest
  obtain ⟨cs', hcs⟩ := hh
  subst hcs
  show parseValue (g + (c + 1)) (('[' :: (('"' :: cs') ++ [']'])) ++ rest) = _
  rw [List.cons_append, List.append_assoc, List.cons_append,
    show (([']'] ++ rest : List Char)) = ']' :: rest from rfl,
    show g + (c + 1) = (g + c) + 1 from by omega, parseValue_arr_quote,
    show ('"' :: (cs' ++ ']' :: rest)) = ('"' :: cs') ++ ']' :: rest from by simp,
    he g rest]
  rfl

/-- Fuel needed to parse a rendered optional string list. -/
def optStrListFuel : Option (List String) → Nat
  | none => 1
  | some [] => 1
  | some (_ :: l) => 2 * l.length + 3

theorem joinComma_renderStr_head (s : String) (l : List String) :
    ∃ cs', joinComma ((s :: l).map renderStr) = '"' :: cs' := by
  rw [show ((s :: l).map renderStr) = renderStr s :: (l.map renderStr) from rfl,
    joinComma_cons, show renderStr s = '"' :: (escString s ++ ['"']) from rfl,
    List.cons_append]
  exact ⟨_, rfl⟩

theorem parsesTo_optStrList (o : Option (List String)) :
    ParsesTo (renderOptStrList o) (jsonOfOptStrList o) (optStrListFuel o) := by
  match o with
  | none => exact parsesTo_null
  | some [] => exact fun g rest => parseValue_arr_empty g rest
  | some (s :: l) =>
    have h := parsesTo_arr_of_elems (elemsTo_strs s l) (joinComma_renderStr_head s l)
    exact h

end VeleroIntegrator
namespace VeleroIntegrator

/-- The members text followed by `}` and any continuation parses as the
member list, for any fuel of at least `c`. -/
def MembersTo (txt : List Char) (ms : List (String × Json)) (c : Nat) : Prop :=
  ∀ g rest, parseMembers (g + c) (txt ++ '}' :: rest) = some (ms, rest)

theorem membersTo_last {vtxt v c} (k : String) (hv : ParsesTo vtxt v c) :
    MembersTo (renderMember k vtxt) [(k, v)] (c + 1) := by
  intro g rest
  simp only [renderMember, renderStr, List.append_assoc, List.cons_append, List.nil_append]
  rw [show g + (c + 1) = (g + c) + 1 from by omega, parseMembers_quote,
    show escString k = escList k.data from rfl]
  rw [parseStrChars_escList_atLen k.data (':' :: (vtxt ++ '}' :: rest))]
  show (match parseValue (g + c) (vtxt ++ '}' :: rest) with
        | none => none
        | some (v, r3) =>
          match skipWs r3 with
          | [] => none
          | c'' :: r4 =>
            if c'' = ',' then
              (parseMembers (g + c) r4).map (fun p => ((String.mk k.data, v) :: p.1, p.2))
            else if c'' = '}' then some ([(String.mk k.data, v)], r4)
            else none) = some ([(k, v)], rest)
  rw [hv g ('}' :: rest)]
  rfl

theorem membersTo_cons {vtxt v c} (k : String) (hv : ParsesTo vtxt v c)
    {cont ms d} (hm : MembersTo cont ms d) :
    MembersTo (renderMember k vtxt ++ ',' :: cont) ((k, v) :: ms) (c + d + 1) := by
  intro g rest
  simp only [renderMember, renderStr, List.append_assoc, List.cons_append, List.nil_append]
  rw [show g + (c + d + 1) = ((g + d) + c) + 1 from by omega, parseMembers_quote,
    show escString k = escList k.data from rfl]
  rw [parseStrChars_escList_atLen k.data (':' :: (vtxt ++ (',' :: (cont ++ '}' :: rest))))]
  show (match parseValue ((g + d) + c) (vtxt ++ (',' :: (cont ++ '}' :: rest))) with
        | none => none
        | some (v, r3) =>
          match skipWs r3 with
          | [] => none
          | c'' :: r4 =>
            if c'' = ',' then
              (parseMembers ((g + d) + c) r4).map (fun p => ((String.mk k.data, v) :: p.1, p.2))
            else if c'' = '}' then some ([(String.mk k.data, v)], r4)
            else none) = some ((k, v) :: ms, rest)
  rw [hv (g + d) (',' :: (cont ++ '}' :: rest))]
  show (parseMembers ((g + d) + c) (cont ++ '}' :: rest)).map
      (fun p => ((String.mk k.data, v) :: p.1, p.2)) = _
  rw [show (g + d) + c = (g + c) + d from by omega, hm (g + c) rest]
  rfl

theorem membersTo_dict (p : String × String) (m : List (String × String)) :
    MembersTo (joinComma ((p :: m).map (fun q => renderStr q.1 ++ ':' :: renderStr q.2)))
      ((p :: m).map (fun q => (q.1, Json.str q.2))) (2 * m.length + 2) := by
  induction m generalizing p with
  | nil => exact membersTo_last p.1 (parsesTo_renderStr p.2)
  | cons q m ih =>
    rw [show ((p :: q :: m).map (fun q => renderStr q.1 ++ ':' :: renderStr q.2)) =
      (renderStr p.1 ++ ':' :: renderStr p.2) ::
        ((q :: m).map (fun q => renderStr q.1 ++ ':' :: renderStr q.2)) from rfl,
      joinComma_cons,
      show joinTail ((q :: m).map (fun q => renderStr q.1 ++ ':' :: renderStr q.2)) =
        ',' :: joinComma ((q :: m).map (fun q => renderStr q.1 ++ ':' :: renderStr q.2))
        from rfl,
      show (2 : Nat) * (q :: m).length + 2 = 1 + (2 * m.length + 2) + 1 from by
        simp [List.length_cons]; omega]
    exact membersTo_cons p.1 (parsesTo_renderStr p.2) (ih q)

theorem parsesTo_obj_of_members {txt ms c} (hm : MembersTo txt ms c)
    (hh : ∃ cs', txt = '"' :: cs') :
    ParsesTo ('{' :: (txt ++ ['}'])) (.obj ms) (c + 1) := by
  intro g rest
  obtain ⟨cs', hcs⟩ := hh
  subst hcs
  show parseValue (g + (c + 1)) (('{' :: (('"' :: cs') ++ ['}'])) ++ rest) = _
  rw [List.cons_append, List.append_assoc, List.cons_append,
    show ((['}'] ++ rest : List Char)) = '}' :: rest from rfl,
    show g + (c + 1) = (g + c) + 1 from by omega, parseValue_obj_quote,
    show ('"' :: (cs' ++ '}' :: rest)) = ('"' :: cs') ++ '}' :: rest from by simp,
    hm g rest]
  rfl

/-- Fuel needed to parse a rendered optional dict. -/
def optDictFuel : Option (List (String × String)) → Nat
  | none => 1
  | some [] => 1
  | some (_ :: m) => 2 * m.length + 3

theorem joinComma_dict_head (p : String × String) (m : List (String × String)) :
    ∃ cs', joinComma ((p :: m).map (fun q => renderStr q.1 ++ ':' :: renderStr q.2)) =
      '"' :: cs' := by
  rw [show ((p :: m).map (fun q => renderStr q.1 ++ ':' :: renderStr q.2)) =
    (renderStr p.1 ++ ':' :: renderStr p.2) ::
      (m.map (fun q => renderStr q.1 ++ ':' :: renderStr q.2)) from rfl,
    joinComma_cons, show renderStr p.1 = '"' :: (escString p.1 ++ ['"']) from rfl,
    List.cons_append, List.cons_append]
  exact ⟨_, rfl⟩

theorem parsesTo_optDict (o : Option (List (String × String))) :
    ParsesTo (renderOptDict o) (jsonOfOptDict o) (optDictFuel o) := by
  match o with
  | none => exact parsesTo_null
  | some [] => exact fun g rest => parseValue_obj_empty g rest
  | some (p :: m) =>
    exact parsesTo_obj_of_members (membersTo_dict p m) (joinComma_dict_head p m)

end VeleroIntegrator
namespace VeleroIntegrator

theorem membersTo_weaken {txt ms c} (h : MembersTo txt ms c) {c' : Nat} (hc : c ≤ c') :
    MembersTo txt ms c' := by
  intro g rest
  rw [show g + c' = (g + (c' - c)) + c from by omega]
  exact h _ rest

/-- The seven members of a serialized spec, as parsed JSON values. -/
def specMembers (x : BackupTargetSpec) : List (String × Json) :=
  [("include_namespaces", jsonOfOptStrList x.include_namespaces),
   ("include_resources", jsonOfOptStrList x.include_resources),
   ("exclude_namespaces", jsonOfOptStrList x.exclude_namespaces),
   ("exclude_resources", jsonOfOptStrList x.exclude_resources),
   ("label_selector", jsonOfOptDict x.label_selector),
   ("ttl", jsonOfOptStr x.ttl),
   ("include_cluster_resources", jsonOfOptBool x.include_cluster_resources)]

/-- The JSON value a serialized spec denotes. -/
def jsonOfSpec (x : BackupTargetSpec) : Json := .obj (specMembers x)

/-- Fuel sufficient to parse the member list of a serialized spec. -/
def specMembersFuel (x : BackupTargetSpec) : Nat :=
  optStrListFuel x.include_namespaces + optStrListFuel x.include_resources +
    optStrListFuel x.exclude_namespaces + optStrListFuel x.exclude_resources +
    optDictFuel x.label_selector + 9

/-- Fuel sufficient to parse a serialized spec. -/
def specFuel (x : BackupTargetSpec) : Nat := specMembersFuel x + 1

theorem membersTo_spec (x : BackupTargetSpec) :
    MembersTo
      (renderMember "include_namespaces" (renderOptStrList x.include_namespaces) ++
        ',' :: (renderMember "include_resources" (renderOptStrList x.include_resources) ++
        ',' :: (renderMember "exclude_namespaces" (renderOptStrList x.exclude_namespaces) ++
        ',' :: (renderMember "exclude_resources" (renderOptStrList x.exclude_resources) ++
        ',' :: (renderMember "label_selector" (renderOptDict x.label_selector) ++
        ',' :: (renderMember "ttl" (renderOptStr x.ttl) ++
        ',' :: renderMember "include_cluster_resources"
            (renderOptBool x.include_cluster_resources)))))))
      (specMembers x) (specMembersFuel x) := by
  have h7 := membersTo_last "include_cluster_resources"
    (parsesTo_optBool x.include_cluster_resources)
  have h6 := membersTo_cons "ttl" (parsesTo_optStr x.ttl) h7
  have h5 := membersTo_cons "label_selector" (parsesTo_optDict x.label_selector) h6
  have h4 := membersTo_cons "exclude_resources" (parsesTo_optStrList x.exclude_resources) h5
  have h3 := membersTo_cons "exclude_namespaces" (parsesTo_optStrList x.exclude_namespaces) h4
  have h2 := membersTo_cons "include_resources" (parsesTo_optStrList x.include_resources) h3
  have h1 := membersTo_cons "include_namespaces" (parsesTo_optStrList x.include_namespaces) h2
  exact membersTo_weaken h1 (by simp only [specMembersFuel]; omega)

theorem two_le_length_renderStr (s : String) : 2 ≤ (renderStr s).length := by
  show 2 ≤ ('"' :: (escString s ++ ['"'])).length
  simp

theorem le_length_joinComma_strs (s : String) (l : List String) :
    2 * l.length + 2 ≤ (joinComma ((s :: l).map renderStr)).length := by
  induction l generalizing s with
  | nil =>
    have := two_le_length_renderStr s
    simpa [joinComma] using this
  | cons t l ih =>
    rw [show ((s :: t :: l).map renderStr) = renderStr s :: ((t :: l).map renderStr) from
      rfl, joinComma_cons,
      show joinTail ((t :: l).map renderStr) = ',' :: joinComma ((t :: l).map renderStr)
        from rfl]
    have h1 := two_le_length_renderStr s
    have h2 := ih t
    simp only [List.length_append, List.length_cons, List.length_map] at h2 ⊢
    omega

theorem optStrListFuel_le (o : Option (List String)) :
    optStrListFuel o ≤ (renderOptStrList o).length + 1 := by
  match o with
  | none => decide
  | some [] => decide
  | some (s :: l) =>
    have h := le_length_joinComma_strs s l
    simp only [optStrListFuel, renderOptStrList, List.length_cons, List.length_append]
    simp only [List.length_map] at h ⊢
    omega

theorem le_length_joinComma_dict (p : String × String) (m : List (String × String)) :
    2 * m.length + 2 ≤
      (joinComma ((p :: m).map (fun q => renderStr q.1 ++ ':' :: renderStr q.2))).length := by
  induction m generalizing p with
  | nil =>
    have h1 := two_le_length_renderStr p.1
    have h2 := two_le_length_renderStr p.2
    simp only [List.map_cons, List.map_nil, joinComma, List.length_append, List.length_cons,
      List.length_nil]
    omega
  | cons q m ih =>
    rw [show ((p :: q :: m).map (fun q => renderStr q.1 ++ ':' :: renderStr q.2)) =
        (renderStr p.1 ++ ':' :: renderStr p.2) ::
          ((q :: m).map (fun q => renderStr q.1 ++ ':' :: renderStr q.2)) from rfl,
      joinComma_cons,
      show joinTail ((q :: m).map (fun q => renderStr q.1 ++ ':' :: renderStr q.2)) =
        ',' :: joinComma ((q :: m).map (fun q => renderStr q.1 ++ ':' :: renderStr q.2))
        from rfl]
    have h1 := two_le_length_renderStr p.1
    have h2 := ih q
    simp only [List.length_append, List.length_cons, List.length_map] at h2 ⊢
    omega

theorem optDictFuel_le (o : Option (List (String × String))) :
    optDictFuel o ≤ (renderOptDict o).length + 1 := by
  match o with
  | none => decide
  | some [] => decide
  | some (p :: m) =>
    have h := le_length_joinComma_dict p m
    simp only [optDictFuel, renderOptDict, List.length_cons, List.length_append]
    simp only [List.length_map] at h ⊢
    omega

theorem specFuel_le (x : BackupTargetSpec) :
    specFuel x ≤ (BackupTargetSpec.serialize x).data.length + 1 := by
  have e : (BackupTargetSpec.serialize x).data = '{' ::
      (renderMember "include_namespaces" (renderOptStrList x.include_namespaces) ++
       ',' :: renderMember "include_resources" (renderOptStrList x.include_resources) ++
       ',' :: renderMember "exclude_namespaces" (renderOptStrList x.exclude_namespaces) ++
       ',' :: renderMember "exclude_resources" (renderOptStrList x.exclude_resources) ++
       ',' :: renderMember "label_selector" (renderOptDict x.label_selector) ++
       ',' :: renderMember "ttl" (renderOptStr x.ttl) ++
       ',' :: renderMember "include_cluster_resources" (renderOptBool x.include_cluster_resources) ++
       ['}']) := rfl
  rw [e]
  have h1 := optStrListFuel_le x.include_namespaces
  have h2 := optStrListFuel_le x.include_resources
  have h3 := optStrListFuel_le x.exclude_namespaces
  have h4 := optStrListFuel_le x.exclude_resources
  have h5 := optDictFuel_le x.label_selector
  have hk1 := two_le_length_renderStr "include_namespaces"
  have hk2 := two_le_length_renderStr "include_resources"
  have hk3 := two_le_length_renderStr "exclude_namespaces"
  have hk4 := two_le_length_renderStr "exclude_resources"
  have hk5 := two_le_length_renderStr "label_selector"
  have hk6 := two_le_length_renderStr "ttl"
  have hk7 := two_le_length_renderStr "include_cluster_resources"
  simp only [specFuel, specMembersFuel, renderMember, List.length_cons, List.length_append]
  omega

theorem parseJson_serialize (x : BackupTargetSpec) :
    parseJson (BackupTargetSpec.serialize x) = some (jsonOfSpec x) := by
  have hfuel := specFuel_le x
  have hp := parsesTo_obj_of_members (membersTo_spec x) ⟨_, rfl⟩
    ((BackupTargetSpec.serialize x).data.length + 1 - specFuel x) []
  rw [List.append_nil] at hp
  have hassoc : (BackupTargetSpec.serialize x).data = '{' ::
      ((renderMember "include_namespaces" (renderOptStrList x.include_namespaces) ++
        ',' :: (renderMember "include_resources" (renderOptStrList x.include_resources) ++
        ',' :: (renderMember "exclude_namespaces" (renderOptStrList x.exclude_namespaces) ++
        ',' :: (renderMember "exclude_resources" (renderOptStrList x.exclude_resources) ++
        ',' :: (renderMember "label_selector" (renderOptDict x.label_selector) ++
        ',' :: (renderMember "ttl" (renderOptStr x.ttl) ++
        ',' :: renderMember "include_cluster_resources"
            (renderOptBool x.include_cluster_resources))))))) ++ ['}']) := by
    show ('{' ::
      (renderMember "include_namespaces" (renderOptStrList x.include_namespaces) ++
       ',' :: renderMember "include_resources" (renderOptStrList x.include_resources) ++
       ',' :: renderMember "exclude_namespaces" (renderOptStrList x.exclude_namespaces) ++
       ',' :: renderMember "exclude_resources" (renderOptStrList x.exclude_resources) ++
       ',' :: renderMember "label_selector" (renderOptDict x.label_selector) ++
       ',' :: renderMember "ttl" (renderOptStr x.ttl) ++
       ',' :: renderMember "include_cluster_resources" (renderOptBool x.include_cluster_resources) ++
       ['}']) : List Char) = _
    simp [List.append_assoc]
  rw [← hassoc] at hp
  show (match parseValue ((BackupTargetSpec.serialize x).data.length + 1)
      (BackupTargetSpec.serialize x).data with
    | some (v, rest) => if (skipWs rest).isEmpty then some v else none
    | none => none) = some (jsonOfSpec x)
  rw [show (BackupTargetSpec.serialize x).data.length + 1 =
      ((BackupTargetSpec.serialize x).data.length + 1 - specFuel x) +
        (specMembersFuel x + 1) from by
    simp only [specFuel] at hfuel ⊢
    omega]
  rw [hp]
  rfl

end VeleroIntegrator
namespace VeleroIntegrator

theorem asStrList_map_str (l : List String) :
    asStrList (.arr (l.map Json.str)) = some l := by
  induction l with
  | nil => rfl
  | cons s l ih =>
    simp only [asStrList, List.map_cons, List.foldr_cons] at ih ⊢
    rw [ih]

theorem getOpt_strList (ms : List (String × Json)) (k : String) (o : Option (List String))
    (h : objGet ms k = some (jsonOfOptStrList o)) :
    getOpt ms k asStrList = some o := by
  unfold getOpt
  rw [h]
  cases o with
  | none => rfl
  | some l =>
    show (asStrList (.arr (l.map Json.str))).map some = some (some l)
    rw [asStrList_map_str]
    rfl

theorem getOpt_str (ms : List (String × Json)) (k : String) (o : Option String)
    (h : objGet ms k = some (jsonOfOptStr o)) :
    getOpt ms k asStr = some o := by
  unfold getOpt
  rw [h]
  cases o with
  | none => rfl
  | some s => rfl

theorem getOpt_bool (ms : List (String × Json)) (k : String) (o : Option Bool)
    (h : objGet ms k = some (jsonOfOptBool o)) :
    getOpt ms k asBool = some o := by
  unfold getOpt
  rw [h]
  cases o with
  | none => rfl
  | some b => rfl

/-- The folding step of `asStrDict`, named for reasoning. -/
def dictFoldStep (acc : Option (List (String × String))) (p : String × Json) :
    Option (List (String × String)) :=
  match acc, p.2 with
  | some m, .str v => some (dictInsert m p.1 v)
  | _, _ => none

theorem asStrDict_obj (ms : List (String × Json)) :
    asStrDict (.obj ms) = ms.foldl dictFoldStep (some []) := rfl

theorem dictInsert_append (m : List (String × String)) (k v : String)
    (hk : ∀ p ∈ m, p.1 ≠ k) : dictInsert m k v = m ++ [(k, v)] := by
  unfold dictInsert
  rw [if_neg]
  simp only [List.any_eq_true, beq_iff_eq, not_exists, not_and]
  exact fun p hp => hk p hp

theorem dictFold_nodup (m : List (String × String)) (acc : List (String × String))
    (hd : ∀ q ∈ m, ∀ p ∈ acc, p.1 ≠ q.1) (hnd : (m.map Prod.fst).Nodup) :
    List.foldl dictFoldStep (some acc) (m.map (fun q => (q.1, Json.str q.2))) =
      some (acc ++ m) := by
  induction m generalizing acc with
  | nil => simp
  | cons q m ih =>
    have hnd' : (m.map Prod.fst).Nodup := by
      rw [List.map_cons] at hnd
      exact (List.nodup_cons.mp hnd).2
    have hq1 : q.1 ∉ m.map Prod.fst := by
      rw [List.map_cons] at hnd
      exact (List.nodup_cons.mp hnd).1
    have hd' : ∀ r ∈ m, ∀ p ∈ acc ++ [q], p.1 ≠ r.1 := by
      intro r hr p hp
      rcases List.mem_append.mp hp with hpa | hpq
      · exact hd r (List.mem_cons_of_mem _ hr) p hpa
      · rw [List.mem_singleton.mp hpq]
        intro he
        have h2 := List.mem_map_of_mem Prod.fst hr
        rw [← he] at h2
        exact hq1 h2
    rw [List.map_cons, List.foldl_cons,
      show dictFoldStep (some acc) (q.1, Json.str q.2) = some (dictInsert acc q.1 q.2) from
        rfl,
      dictInsert_append acc q.1 q.2 (fun p hp => hd q (List.mem_cons_self q m) p hp),
      show acc ++ [(q.1, q.2)] = acc ++ [q] from by simp,
      ih (acc ++ [q]) hd' hnd']
    simp

theorem asStrDict_map (m : List (String × String)) (hnd : (m.map Prod.fst).Nodup) :
    asStrDict (.obj (m.map (fun q => (q.1, Json.str q.2)))) = some m := by
  rw [asStrDict_obj, dictFold_nodup m [] (fun q _ p hp => absurd hp (List.not_mem_nil p)) hnd]
  simp

theorem getOpt_dict (ms : List (String × Json)) (k : String)
    (o : Option (List (String × String)))
    (hnd : ∀ m, o = some m → (m.map Prod.fst).Nodup)
    (h : objGet ms k = some (jsonOfOptDict o)) :
    getOpt ms k asStrDict = some o := by
  unfold getOpt
  rw [h]
  cases o with
  | none => rfl
  | some m =>
    show (asStrDict (.obj (m.map (fun q => (q.1, Json.str q.2))))).map some = some (some m)
    rw [asStrDict_map m (hnd m rfl)]
    rfl

theorem validate_jsonOfSpec (x : BackupTargetSpec)
    (hsel : ∀ m, x.label_selector = some m → (m.map Prod.fst).Nodup) :
    BackupTargetSpec.validate (jsonOfSpec x) = some x := by
  simp only [jsonOfSpec, BackupTargetSpec.validate]
  rw [getOpt_strList (specMembers x) "include_namespaces" x.include_namespaces rfl,
    getOpt_strList (specMembers x) "include_resources" x.include_resources rfl,
    getOpt_strList (specMembers x) "exclude_namespaces" x.exclude_namespaces rfl,
    getOpt_strList (specMembers x) "exclude_resources" x.exclude_resources rfl,
    getOpt_dict (specMembers x) "label_selector" x.label_selector hsel rfl,
    getOpt_str (specMembers x) "ttl" x.ttl rfl,
    getOpt_bool (specMembers x) "include_cluster_resources" x.include_cluster_resources rfl]
  rfl

end VeleroIntegrator
namespace VeleroIntegrator

/-- A fully populated spec value for exercising the round trip. -/
def roundTripSample : BackupTargetSpec :=
  { include_namespaces := some ["default", "kube-system"],
    include_resources := some ["deployments"],
    exclude_namespaces := some [],
    exclude_resources := none,
    label_selector := some [("app", "web"), ("tier", "front")],
    ttl := some "72h30m",
    include_cluster_resources := some true }

/-- C9: for every `BackupTargetSpec` value `x` (its `label_selector`, a Python
dict, having distinct keys), parsing the serialized JSON text back through
`model_validate_json` reproduces `x` field-for-field. -/
theorem serialize_parse_round_trip (x : BackupTargetSpec)
    (hsel : ∀ m, x.label_selector = some m → (m.map Prod.fst).Nodup) :
    BackupTargetSpec.model_validate_json (BackupTargetSpec.serialize x) = some x := by
  show (parseJson (BackupTargetSpec.serialize x)).bind BackupTargetSpec.validate = some x
  rw [parseJson_serialize x]
  show BackupTargetSpec.validate (jsonOfSpec x) = some x
  exact validate_jsonOfSpec x hsel

/-- The round trip evaluated at a concrete, fully populated spec. -/
theorem serialize_parse_round_trip_witness :
    BackupTargetSpec.model_validate_json (BackupTargetSpec.serialize roundTripSample) =
      some roundTripSample :=
  serialize_parse_round_trip roundTripSample (by
    intro m hm
    rw [show roundTripSample.label_selector = some [("app", "web"), ("tier", "front")] from
      rfl] at hm
    injection hm with h
    subst h
    decide)

end VeleroIntegrator
